import Mathlib

/-!
Verification of the verse retrieval and ranking engine of the
bhagavad-gita-chatbot repository (src/gita_processor.py and
src/utils/text_processor.py).

The Python sources are embedded shallowly:

* floats are modelled as exact rationals;
* Python dicts read with a default of zero, as in
  st.session_state.verse_usage.get(verse_id, 0), are modelled as total
  functions into the naturals;
* Python sets are modelled as finite sets (and set(text.split()) as a
  duplicate-free list where the source iterates over the set);
* the NLTK and WordNet resources used by utils/text_processor.py
  (word tokenization, stop words, lemmatization, synset relatedness)
  are external linguistic data, modelled as parameters (the structures
  NLP and Oracle below);
* the call to random.uniform(0.95, 1.05) in calculate_verse_score is
  modelled as an explicit per-index jitter parameter;
* string primitives (whitespace split, lowercasing) are re-implemented
  structurally over the character list so that concrete instances
  compute inside the kernel.
-/

namespace Gita

/-- Core loop of Python str.split(): walk the characters, accumulating the
current word reversed, emitting maximal nonempty runs of non-whitespace. -/
def splitWs : List Char → List Char → List String
  | cur, [] => if cur.isEmpty then [] else [String.mk cur.reverse]
  | cur, c :: rest =>
    if c.isWhitespace then
      if cur.isEmpty then splitWs [] rest
      else String.mk cur.reverse :: splitWs [] rest
    else splitWs (c :: cur) rest

/-- Python str.split() with no separator: split on whitespace runs,
no empty fragments. -/
def pyWords (s : String) : List String := splitWs [] s.data

/-- Python str.lower(), character by character. -/
def pyLower (s : String) : String := String.mk (s.data.map Char.toLower)

/-- External linguistic resources used by calculate_similarity in
utils/text_processor.py: the WordNet-based lemmatizer (with the POS tag
of get_wordnet_pos folded in) and the synset relatedness test
(any path_similarity above 0.5 between synsets of the two words;
false whenever either word has no synsets). -/
structure Oracle where
  lemmatize : String → String
  related : String → String → Bool

/-- Token set of a text, as in set(text.split()) in calculate_similarity,
listed without duplicates for iteration. -/
def setWords (s : String) : List String := (pyWords s).dedup

/-- Token set of a text as a finite set, for the cardinalities taken in
calculate_similarity. -/
def tokenFinset (s : String) : Finset String := (pyWords s).toFinset

/-- Jaccard part of calculate_similarity (utils/text_processor.py,
lines 73-79): intersection over union of the two token sets, 0 when the
union is empty. -/
def jaccard_sim (text1 text2 : String) : ℚ :=
  let intersection := (tokenFinset text1 ∩ tokenFinset text2).card
  let union := (tokenFinset text1 ∪ tokenFinset text2).card
  if union ≠ 0 then (intersection : ℚ) / (union : ℚ) else 0

/-- Lemmatized word list of a text as built inside calculate_similarity:
words1 = [lemmatizer.lemmatize(word, get_wordnet_pos(word)) for word in set1]. -/
def lemmaWords (O : Oracle) (s : String) : List String :=
  (setWords s).map O.lemmatize

/-- Nested counting loop of calculate_similarity (lines 90-104): for every
word1 in words1 and word2 in words2, semantic_matches is incremented when
the two words are semantically related. Note this counts related PAIRS. -/
def semantic_matches (O : Oracle) (t1 t2 : String) : ℕ :=
  ((lemmaWords O t1).map
    (fun w1 => (lemmaWords O t2).countP (fun w2 => O.related w1 w2))).sum

/-- Semantic term of calculate_similarity (line 106):
semantic_matches / max(len(words1), len(words2)) when both lists are
nonempty, else 0. -/
def semantic_sim (O : Oracle) (t1 t2 : String) : ℚ :=
  if lemmaWords O t1 ≠ [] ∧ lemmaWords O t2 ≠ [] then
    (semantic_matches O t1 t2 : ℚ) /
      ((max (lemmaWords O t1).length (lemmaWords O t2).length : ℕ) : ℚ)
  else 0

/-- calculate_similarity (utils/text_processor.py, lines 70-128):
weighted combination 0.6 * jaccard + 0.4 * semantic. -/
def calculate_similarity (O : Oracle) (text1 text2 : String) : ℚ :=
  0.6 * jaccard_sim text1 text2 + 0.4 * semantic_sim O text1 text2

/-- Oracle instance relating no word pairs (as WordNet behaves on words
with no synsets, e.g. out-of-vocabulary transliterations). -/
def noRel : Oracle := ⟨id, fun _ _ => false⟩

/-- Oracle instance relating every word pair. -/
def allRel : Oracle := ⟨id, fun _ _ => true⟩

lemma jaccard_sim_nonneg (t1 t2 : String) : 0 ≤ jaccard_sim t1 t2 := by
  unfold jaccard_sim
  dsimp only
  split
  · positivity
  · exact le_refl 0

lemma jaccard_sim_le_one (t1 t2 : String) : jaccard_sim t1 t2 ≤ 1 := by
  unfold jaccard_sim
  dsimp only
  split
  · rename_i h
    rw [div_le_one (by positivity)]
    exact_mod_cast Finset.card_le_card Finset.inter_subset_union
  · exact zero_le_one

lemma semantic_sim_nonneg (O : Oracle) (t1 t2 : String) :
    0 ≤ semantic_sim O t1 t2 := by
  unfold semantic_sim
  split
  · positivity
  · exact le_refl 0

lemma semantic_sim_le_one (O : Oracle) (t1 t2 : String)
    (h : semantic_matches O t1 t2 ≤
      max (lemmaWords O t1).length (lemmaWords O t2).length) :
    semantic_sim O t1 t2 ≤ 1 := by
  unfold semantic_sim
  split
  · rename_i hne
    have hpos : 0 < max (lemmaWords O t1).length (lemmaWords O t2).length := by
      have := hne.1
      have hlen : 0 < (lemmaWords O t1).length := List.length_pos.mpr this
      omega
    rw [div_le_one (by exact_mod_cast hpos)]
    exact_mod_cast h
  · exact zero_le_one

lemma jaccard_sim_self (t : String) (h : pyWords t ≠ []) :
    jaccard_sim t t = 1 := by
  unfold jaccard_sim
  have hne : tokenFinset t ≠ ∅ := by
    simp only [tokenFinset, ne_eq, List.toFinset_eq_empty_iff]
    exact h
  have hcard : (tokenFinset t).card ≠ 0 := fun hc => hne (Finset.card_eq_zero.mp hc)
  simp only [Finset.inter_self, Finset.union_self]
  rw [if_pos hcard, div_self (by exact_mod_cast hcard)]

lemma sum_map_add {α : Type} (l : List α) (f g : α → ℕ) :
    (l.map (fun x => f x + g x)).sum = (l.map f).sum + (l.map g).sum := by
  induction l with
  | nil => simp
  | cons a l ih => simp [ih]; omega

lemma countP_eq_sum_map {α : Type} (l : List α) (p : α → Bool) :
    l.countP p = (l.map (fun x => if p x then 1 else 0)).sum := by
  induction l with
  | nil => simp
  | cons a l ih =>
    rw [List.countP_cons, List.map_cons, List.sum_cons, ih]
    omega

lemma sum_countP_comm {α β : Type} (A : List α) (B : List β) (r : α → β → Bool) :
    (A.map (fun x => B.countP (fun y => r x y))).sum =
      (B.map (fun y => A.countP (fun x => r x y))).sum := by
  induction A with
  | nil => simp
  | cons a A ih =>
    rw [List.map_cons, List.sum_cons, ih]
    have hcons : (B.map (fun y => (a :: A).countP (fun x => r x y))).sum =
        (B.map (fun y => A.countP (fun x => r x y) +
          (if r a y then 1 else 0))).sum := by
      congr 1
      apply List.map_congr_left
      intro y _
      rw [List.countP_cons]
    rw [hcons, sum_map_add, countP_eq_sum_map B (fun y => r a y)]
    omega

lemma semantic_matches_comm (O : Oracle)
    (hsym : ∀ x y, O.related x y = O.related y x) (a b : String) :
    semantic_matches O a b = semantic_matches O b a := by
  unfold semantic_matches
  rw [sum_countP_comm]
  congr 1
  apply List.map_congr_left
  intro y _
  congr 1
  funext x
  exact hsym x y

lemma jaccard_sim_comm (a b : String) : jaccard_sim a b = jaccard_sim b a := by
  unfold jaccard_sim
  rw [Finset.inter_comm, Finset.union_comm]

lemma semantic_sim_comm (O : Oracle)
    (hsym : ∀ x y, O.related x y = O.related y x) (a b : String) :
    semantic_sim O a b = semantic_sim O b a := by
  unfold semantic_sim
  rw [semantic_matches_comm O hsym, Nat.max_comm]
  rcases Decidable.em (lemmaWords O a ≠ [] ∧ lemmaWords O b ≠ []) with h | h
  · rw [if_pos h, if_pos ⟨h.2, h.1⟩]
  · rw [if_neg h, if_neg (fun hc => h ⟨hc.2, hc.1⟩)]

/-- Claim C10: calculate_similarity is symmetric, assuming the underlying
lexical-relatedness oracle is symmetric: both the Jaccard term and the
semantic pair count are symmetric in their arguments. -/
theorem C10_calculate_similarity_symmetric (O : Oracle)
    (hsym : ∀ x y, O.related x y = O.related y x) (a b : String) :
    calculate_similarity O a b = calculate_similarity O b a := by
  unfold calculate_similarity
  rw [jaccard_sim_comm, semantic_sim_comm O hsym]

/-- Witness for C10 at a concrete input: the no-relation oracle is
symmetric, so similarity of the two concrete texts agrees both ways. -/
theorem C10_calculate_similarity_symmetric_witness :
    calculate_similarity noRel "a b" "x" = calculate_similarity noRel "x" "a b" :=
  C10_calculate_similarity_symmetric noRel (fun _ _ => rfl) "a b" "x"

/-- Claim C1, counterexample: as stated the claim is false on the code.
With an oracle that relates no pairs (as WordNet behaves on words without
synsets), self-similarity of the nonempty normalized text "x" is
0.6, not 1; and with an oracle relating every pair (as WordNet can for
common words, e.g. words sharing a synset), the score on "a b" versus
itself is 0.6 + 0.4 * (4/2) = 1.4 > 1, outside [0, 1]. -/
theorem C1_similarity_bounds_counterexample :
    ("x" ≠ "" ∧ calculate_similarity noRel "x" "x" ≠ 1) ∧
      1 < calculate_similarity allRel "a b" "a b" := by
  constructor
  · refine ⟨by decide, ?_⟩
    have h0 : tokenFinset "x" ≠ ∅ := by decide
    have hc : (tokenFinset "x").card = 1 := by decide
    have h3 : lemmaWords noRel "x" = ["x"] := by decide
    have h4 : semantic_matches noRel "x" "x" = 0 := by decide
    rw [calculate_similarity, jaccard_sim, semantic_sim, h3, h4]
    norm_num [hc, h0]
  · have h0 : tokenFinset "a b" ≠ ∅ := by decide
    have hc : (tokenFinset "a b").card = 2 := by decide
    have h3 : lemmaWords allRel "a b" = ["a", "b"] := by decide
    have h4 : semantic_matches allRel "a b" "a b" = 4 := by decide
    rw [calculate_similarity, jaccard_sim, semantic_sim, h3, h4]
    norm_num [hc, h0, List.cons_ne_nil]

/-- Claim C1, amended: the score is always nonnegative; it is at most 1
provided the semantic matched-pair count does not exceed
max(len(words1), len(words2)) (the code counts related pairs, so this can
fail); and self-similarity of a nonempty normalized text is at least 0.6
(the Jaccard part is 1, but the semantic part need not be). -/
theorem C1_similarity_bounds (O : Oracle) (a b : String) :
    0 ≤ calculate_similarity O a b ∧
      (semantic_matches O a b ≤
          max (lemmaWords O a).length (lemmaWords O b).length →
        calculate_similarity O a b ≤ 1) ∧
      (pyWords a ≠ [] → 0.6 ≤ calculate_similarity O a a) := by
  refine ⟨?_, ?_, ?_⟩
  · have h1 := jaccard_sim_nonneg a b
    have h2 := semantic_sim_nonneg O a b
    unfold calculate_similarity
    nlinarith
  · intro h
    have h1 := jaccard_sim_le_one a b
    have h2 := semantic_sim_le_one O a b h
    have h3 := jaccard_sim_nonneg a b
    have h4 := semantic_sim_nonneg O a b
    unfold calculate_similarity
    nlinarith
  · intro h
    have h1 := jaccard_sim_self a h
    have h2 := semantic_sim_nonneg O a a
    unfold calculate_similarity
    rw [h1]
    nlinarith

/-- Witness for C1 amended, at concrete inputs: bounds at ("x", "y") and
the self-similarity lower bound at "x". -/
theorem C1_similarity_bounds_witness :
    0 ≤ calculate_similarity noRel "x" "y" ∧
      calculate_similarity noRel "x" "y" ≤ 1 ∧
      0.6 ≤ calculate_similarity noRel "x" "x" :=
  ⟨(C1_similarity_bounds noRel "x" "y").1,
   (C1_similarity_bounds noRel "x" "y").2.1 (by decide),
   (C1_similarity_bounds noRel "x" "x").2.2 (by decide)⟩

/-- External NLTK resources used by preprocess_text in
utils/text_processor.py: locale-aware word tokenization, the English
stop-word set, and WordNet lemmatization (POS tag folded in). -/
structure NLP where
  tokenize : String → List String
  stop_words : List String
  lemmatize : String → String

/-- Translation of re.sub applied in preprocess_text (line 40): remove every
character outside the Latin alphabet and whitespace. -/
def stripNonAlpha (s : String) : String :=
  String.mk (s.data.filter (fun c => c.isAlpha || c.isWhitespace))

/-- preprocess_text (utils/text_processor.py, lines 34-68), happy path:
lowercase, strip non-alphabetic characters, tokenize, drop stop words,
lemmatize, join with single spaces. The nested try/except fallbacks fire
only when an NLTK resource raises, which the abstract total NLP cannot. -/
def preprocess_text (nlp : NLP) (text : String) : String :=
  let text := pyLower text
  let text := stripNonAlpha text
  let tokens := nlp.tokenize text
  let tokens := tokens.filter (fun t => t ∉ nlp.stop_words)
  let tokens := tokens.map nlp.lemmatize
  String.intercalate " " tokens

/-- Row of data/bhagavad_gita.csv as loaded into self.gita_df. -/
structure Verse where
  chapter : ℕ
  verse_number : ℕ
  verse_text : String
  meaning : String
deriving DecidableEq, Inhabited, Repr

/-- Verse identity key, rendered as in the source:
f-string "{chapter}.{verse_number}". -/
def verse_key (chapter verse_number : ℕ) : String :=
  toString chapter ++ "." ++ toString verse_number

/-- Verse identity key of a corpus row. -/
def Verse.vid (v : Verse) : String := verse_key v.chapter v.verse_number

/-- Streamlit session state used by GitaProcessor: the dicts
st.session_state.verse_usage and st.session_state.chapter_usage (read with
default 0, hence total functions) and the set st.session_state.last_verses. -/
structure UsageState where
  verse_usage : String → ℕ
  chapter_usage : ℕ → ℕ
  last_verses : Finset String

/-- Fresh session state: empty dicts and empty last-verses set. -/
def UsageState.init : UsageState := ⟨fun _ => 0, fun _ => 0, ∅⟩

/-- Scored candidate dict appended to verse_scores in find_relevant_verses
(gita_processor.py, lines 110-115). -/
structure ScoredVerse where
  index : ℕ
  score : ℚ
  chapter : ℕ
  verse_id : String
deriving DecidableEq, Inhabited, Repr

/-- calculate_verse_score (gita_processor.py, lines 61-92): similarity
damped by a usage penalty, halved again if the verse was served last turn,
boosted for underrepresented chapters, and multiplied by the jitter drawn
from random.uniform(0.95, 1.05) (passed here as the randomization
argument). -/
def calculate_verse_score (u : UsageState) (similarity : ℚ) (verse_id : String)
    (chapter : ℕ) (randomization : ℚ) : ℚ :=
  let base_score := similarity
  let usage_count : ℚ := (u.verse_usage verse_id : ℚ)
  let penalty_factor : ℚ := 1 / (1 + 0.2 * usage_count)
  let penalty_factor :=
    if verse_id ∈ u.last_verses then penalty_factor * 0.5 else penalty_factor
  let chapter_usage : ℚ := (u.chapter_usage chapter : ℚ)
  let chapter_boost : ℚ := 1 / (1 + 0.1 * chapter_usage)
  base_score * penalty_factor * chapter_boost * randomization

/-- Scoring pass of find_relevant_verses (gita_processor.py, lines
99-115): for every corpus index, similarity of the processed question
against the precomputed processed verse, then the final score. The
processed verses are self.processed_verses =
gita_df.verse_text.apply(preprocess_text). -/
def verse_scores (nlp : NLP) (O : Oracle) (df : List Verse) (u : UsageState)
    (jitter : ℕ → ℚ) (question : String) : List ScoredVerse :=
  let processed_question := preprocess_text nlp question
  (List.range df.length).map (fun idx =>
    let verse := df.getD idx default
    let similarity :=
      calculate_similarity O processed_question (preprocess_text nlp verse.verse_text)
    let vid := verse_key verse.chapter verse.verse_number
    { index := idx
      score := calculate_verse_score u similarity vid verse.chapter (jitter idx)
      chapter := verse.chapter
      verse_id := vid })

/-- Comparison passed to the stable sort
verse_scores.sort(key score, reverse=True) (gita_processor.py, line 118). -/
def scoreGE (a b : ScoredVerse) : Bool := decide (b.score ≤ a.score)

/-- Sorted candidate list (gita_processor.py, line 118): Python list.sort
is a stable sort; with reverse=True ties keep their original order. -/
def rankedVerses (nlp : NLP) (O : Oracle) (df : List Verse) (u : UsageState)
    (jitter : ℕ → ℚ) (question : String) : List ScoredVerse :=
  (verse_scores nlp O df u jitter question).mergeSort scoreGE

/-- Inner for-loop of the selection in find_relevant_verses
(gita_processor.py, lines 126-132): walk a snapshot of remaining_verses,
moving the first candidate of each not-yet-selected chapter into
selected_verses, breaking once top_n verses are selected. Returns the new
selected list, selected chapter set, and remaining list (in order). -/
def innerFor (top_n : ℕ) (sel : List ScoredVerse) (chs : Finset ℕ) :
    List ScoredVerse → List ScoredVerse × Finset ℕ × List ScoredVerse
  | [] => (sel, chs, [])
  | v :: rest =>
    if v.chapter ∈ chs then
      let r := innerFor top_n sel chs rest
      (r.1, r.2.1, v :: r.2.2)
    else
      let sel2 := sel ++ [v]
      let chs2 := insert v.chapter chs
      if top_n ≤ sel2.length then (sel2, chs2, rest)
      else innerFor top_n sel2 chs2 rest

/-- While-loop of the selection in find_relevant_verses (gita_processor.py,
lines 125-139): run the chapter-diversity pass, then, if still short of
top_n and candidates remain, move the best remaining candidate over
regardless of chapter, and repeat. Each iteration strictly shrinks
remaining, so fuel bounded below by its length makes the recursion total
without changing the semantics. -/
def selectLoop (top_n : ℕ) : ℕ → List ScoredVerse → Finset ℕ →
    List ScoredVerse → List ScoredVerse
  | 0, sel, _, _ => sel
  | fuel + 1, sel, chs, remaining =>
    if sel.length < top_n ∧ remaining ≠ [] then
      let r := innerFor top_n sel chs remaining
      if r.1.length < top_n then
        match r.2.2 with
        | [] => r.1
        | v :: rest => selectLoop top_n fuel (r.1 ++ [v]) r.2.1 rest
      else r.1
    else sel

/-- Complete diversity selection of find_relevant_verses (gita_processor.py,
lines 121-139), starting from empty selection and chapter set. -/
def selectVerses (top_n : ℕ) (ranked : List ScoredVerse) : List ScoredVerse :=
  selectLoop top_n (ranked.length + 1) [] ∅ ranked

/-- update_usage_stats (gita_processor.py, lines 32-59): for each selected
verse, increment its usage count and its chapter count by one. The
monitoring calls have no effect on the state. -/
def update_usage_stats (u : UsageState) (selected : List Verse) : UsageState :=
  selected.foldl (fun st verse =>
    { st with
      verse_usage := fun k =>
        if k = verse.vid then st.verse_usage k + 1 else st.verse_usage k
      chapter_usage := fun c =>
        if c = verse.chapter then st.chapter_usage c + 1 else st.chapter_usage c }) u

/-- Assignment of st.session_state.last_verses in find_relevant_verses
(gita_processor.py, lines 147-150): a hard reset to exactly the verse ids
of the rows just selected. -/
def set_last_verses (u : UsageState) (selected : List Verse) : UsageState :=
  { u with last_verses := (selected.map Verse.vid).toFinset }

/-- Local selected_verses of find_relevant_verses (gita_processor.py,
lines 121-139): the diversity selection applied to the ranked list. -/
def selected_verses (nlp : NLP) (O : Oracle) (df : List Verse)
    (u : UsageState) (jitter : ℕ → ℚ) (question : String) (top_n : ℕ) :
    List ScoredVerse :=
  selectVerses top_n (rankedVerses nlp O df u jitter question)

/-- Local selected_df of find_relevant_verses (gita_processor.py, line
142): the corpus rows at the selected indices. -/
def selected_rows (nlp : NLP) (O : Oracle) (df : List Verse)
    (u : UsageState) (jitter : ℕ → ℚ) (question : String) (top_n : ℕ) :
    List Verse :=
  (selected_verses nlp O df u jitter question top_n).map
    (fun s => df.getD s.index default)

/-- Session state after the two mutation steps of find_relevant_verses
(gita_processor.py, lines 145-150): update_usage_stats on the selected
rows, then the hard reset of last_verses. -/
def post_state (nlp : NLP) (O : Oracle) (df : List Verse)
    (u : UsageState) (jitter : ℕ → ℚ) (question : String) (top_n : ℕ) :
    UsageState :=
  set_last_verses
    (update_usage_stats u (selected_rows nlp O df u jitter question top_n))
    (selected_rows nlp O df u jitter question top_n)

/-- Body of find_relevant_verses inside the try block (gita_processor.py,
lines 96-172). The one failure point reachable in this model is the
metrics dict: average_score divides by len(selected_verses), raising
ZeroDivisionError when the selection is empty; by then the usage state has
already been mutated. Returns the outcome and the session state as left by
the body. -/
def find_relevant_verses_run (nlp : NLP) (O : Oracle) (df : List Verse)
    (u : UsageState) (jitter : ℕ → ℚ) (question : String) (top_n : ℕ) :
    Except Unit (List Verse) × UsageState :=
  if (selected_verses nlp O df u jitter question top_n).length = 0 then
    (Except.error (), post_state nlp O df u jitter question top_n)
  else
    (Except.ok (selected_rows nlp O df u jitter question top_n),
      post_state nlp O df u jitter question top_n)

/-- find_relevant_verses (gita_processor.py, lines 94-176) including the
except handler: on an internal exception it logs an error event (the Bool
component) and returns an empty DataFrame with the corpus columns,
here the empty verse list. The session state keeps whatever mutations
happened before the exception. -/
def find_relevant_verses (nlp : NLP) (O : Oracle) (df : List Verse)
    (u : UsageState) (jitter : ℕ → ℚ) (question : String) (top_n : ℕ) :
    List Verse × UsageState × Bool :=
  match find_relevant_verses_run nlp O df u jitter question top_n with
  | (Except.ok res, u2) => (res, u2, false)
  | (Except.error _, u2) => ([], u2, true)

/-- NLP instance with plain whitespace tokenization, no stop words, and
identity lemmatization (the documented minimal fallback behavior). -/
def plainNLP : NLP := ⟨pyWords, [], id⟩

example : preprocess_text plainNLP "  Dharma,  42 YOGA " = "dharma yoga" := rfl
example : verse_key 3 14 = "3.14" := rfl

/-- Claim C3: the scoring pass visits every verse of the corpus (no verse
skipped), and each final score equals
base_similarity * (1 / (1 + 0.2 * usage_count)) * (0.5 exactly when the
verse id is in the last-served set) * (1 / (1 + 0.1 * chapter_count)) *
jitter, where the usage dicts read missing entries as count 0 (the state
functions are total with default 0) and the random.uniform(0.95, 1.05)
draw is modelled by the arbitrary jitter parameter. -/
theorem C3_verse_score_formula (nlp : NLP) (O : Oracle) (df : List Verse)
    (u : UsageState) (jitter : ℕ → ℚ) (q : String) :
    (verse_scores nlp O df u jitter q).length = df.length ∧
    ∀ i, i < df.length →
      ((verse_scores nlp O df u jitter q).getD i default).score =
        calculate_similarity O (preprocess_text nlp q)
            (preprocess_text nlp (df.getD i default).verse_text)
          * (1 / (1 + 0.2 * (u.verse_usage ((df.getD i default).vid) : ℚ)))
          * (if (df.getD i default).vid ∈ u.last_verses then 0.5 else 1)
          * (1 / (1 + 0.1 * (u.chapter_usage (df.getD i default).chapter : ℚ)))
          * jitter i := by
  constructor
  · simp [verse_scores]
  · intro i hi
    have hget : (verse_scores nlp O df u jitter q)[i]? =
        some ((fun idx =>
          let verse := df.getD idx default
          let similarity := calculate_similarity O (preprocess_text nlp q)
            (preprocess_text nlp verse.verse_text)
          let vid := verse_key verse.chapter verse.verse_number
          ({ index := idx
             score := calculate_verse_score u similarity vid verse.chapter (jitter idx)
             chapter := verse.chapter
             verse_id := vid } : ScoredVerse)) i) := by
      rw [verse_scores]
      rw [List.getElem?_map, List.getElem?_range hi]
      rfl
    rw [List.getD_eq_getElem?_getD, hget]
    show calculate_verse_score u _ _ _ _ = _
    rw [calculate_verse_score, Verse.vid]
    rcases Decidable.em
        (verse_key (df.getD i default).chapter (df.getD i default).verse_number
          ∈ u.last_verses) with hmem | hmem
    · rw [if_pos hmem, if_pos hmem]
      ring
    · rw [if_neg hmem, if_neg hmem]
      ring

/-- Witness for C3 at a concrete corpus of one verse and index 0. -/
theorem C3_verse_score_formula_witness :
    ((verse_scores plainNLP noRel [⟨1, 1, "dharma", ""⟩] UsageState.init
        (fun _ => 1) "yoga").getD 0 default).score =
      calculate_similarity noRel (preprocess_text plainNLP "yoga")
          (preprocess_text plainNLP "dharma")
        * (1 / (1 + 0.2 * ((0 : ℕ) : ℚ)))
        * 1
        * (1 / (1 + 0.1 * ((0 : ℕ) : ℚ)))
        * 1 := by
  have h := (C3_verse_score_formula plainNLP noRel [⟨1, 1, "dharma", ""⟩]
    UsageState.init (fun _ => 1) "yoga").2 0 (by decide)
  simpa [UsageState.init, Verse.vid] using h

/-- Set of chapters appearing in a candidate list. -/
def chaptersOf (l : List ScoredVerse) : Finset ℕ :=
  (l.map (fun v => v.chapter)).toFinset

/-- Number of candidates of a given chapter in a list. -/
def countChapter (c : ℕ) (l : List ScoredVerse) : ℕ :=
  l.countP (fun v => decide (v.chapter = c))

lemma chaptersOf_append (l1 l2 : List ScoredVerse) :
    chaptersOf (l1 ++ l2) = chaptersOf l1 ∪ chaptersOf l2 := by
  simp [chaptersOf]

lemma countChapter_append (c : ℕ) (l1 l2 : List ScoredVerse) :
    countChapter c (l1 ++ l2) = countChapter c l1 + countChapter c l2 := by
  simp [countChapter, List.countP_append]

lemma countChapter_singleton (c : ℕ) (v : ScoredVerse) :
    countChapter c [v] = if v.chapter = c then 1 else 0 := by
  simp [countChapter, List.countP_cons, List.countP_nil]

lemma countChapter_eq_zero (c : ℕ) (l : List ScoredVerse)
    (h : c ∉ chaptersOf l) : countChapter c l = 0 := by
  rw [countChapter, List.countP_eq_zero]
  intro v hv
  simp only [decide_eq_true_eq]
  intro hc
  exact h (by simp [chaptersOf, List.mem_map]; exact ⟨v, hv, hc⟩)

lemma mem_chaptersOf (c : ℕ) (l : List ScoredVerse) :
    c ∈ chaptersOf l ↔ ∃ v ∈ l, v.chapter = c := by
  simp [chaptersOf, List.mem_map]

lemma innerFor_sel_prefix (top_n : ℕ) (l : List ScoredVerse) :
    ∀ sel chs, ∃ t, (innerFor top_n sel chs l).1 = sel ++ t := by
  induction l with
  | nil => intro sel chs; exact ⟨[], by simp [innerFor]⟩
  | cons v rest ih =>
    intro sel chs
    by_cases hmem : v.chapter ∈ chs
    · obtain ⟨t, ht⟩ := ih sel chs
      exact ⟨t, by simp [innerFor, hmem, ht]⟩
    · by_cases hlen : top_n ≤ sel.length + 1
      · exact ⟨[v], by simp [innerFor, hmem, hlen]⟩
      · obtain ⟨t, ht⟩ := ih (sel ++ [v]) (insert v.chapter chs)
        refine ⟨[v] ++ t, ?_⟩
        simp only [innerFor, if_neg hmem]
        rw [if_neg (by simpa using hlen)]
        simpa using ht

lemma innerFor_sel_le (top_n : ℕ) (l : List ScoredVerse) :
    ∀ sel chs, sel.length < top_n → (innerFor top_n sel chs l).1.length ≤ top_n := by
  induction l with
  | nil => intro sel chs h; simp [innerFor]; omega
  | cons v rest ih =>
    intro sel chs h
    by_cases hmem : v.chapter ∈ chs
    · simpa [innerFor, hmem] using ih sel chs h
    · by_cases hlen : top_n ≤ sel.length + 1
      · simp only [innerFor, if_neg hmem]
        rw [if_pos (by simpa using hlen)]
        simp
        omega
      · simp only [innerFor, if_neg hmem]
        rw [if_neg (by simpa using hlen)]
        exact ih (sel ++ [v]) (insert v.chapter chs) (by simp; omega)

lemma innerFor_conserve (top_n : ℕ) (l : List ScoredVerse) :
    ∀ sel chs, (innerFor top_n sel chs l).1.length +
      (innerFor top_n sel chs l).2.2.length = sel.length + l.length := by
  induction l with
  | nil => intro sel chs; simp [innerFor]
  | cons v rest ih =>
    intro sel chs
    by_cases hmem : v.chapter ∈ chs
    · have := ih sel chs
      simp only [innerFor, if_pos hmem, List.length_cons]
      simp only [List.length_cons] at this ⊢
      omega
    · by_cases hlen : top_n ≤ sel.length + 1
      · simp only [innerFor, if_neg hmem]
        rw [if_pos (by simpa using hlen)]
        simp
        omega
      · simp only [innerFor, if_neg hmem]
        rw [if_neg (by simpa using hlen)]
        have := ih (sel ++ [v]) (insert v.chapter chs)
        simp at this ⊢
        omega

lemma innerFor_chs_mono (top_n : ℕ) (l : List ScoredVerse) :
    ∀ sel chs, chs ⊆ (innerFor top_n sel chs l).2.1 := by
  induction l with
  | nil => intro sel chs; simp [innerFor]
  | cons v rest ih =>
    intro sel chs
    by_cases hmem : v.chapter ∈ chs
    · simpa [innerFor, hmem] using ih sel chs
    · by_cases hlen : top_n ≤ sel.length + 1
      · simp only [innerFor, if_neg hmem]
        rw [if_pos (by simpa using hlen)]
        exact Finset.subset_insert _ _
      · simp only [innerFor, if_neg hmem]
        rw [if_neg (by simpa using hlen)]
        exact (Finset.subset_insert _ _).trans
          (ih (sel ++ [v]) (insert v.chapter chs))

lemma innerFor_chs_eq (top_n : ℕ) (l : List ScoredVerse) :
    ∀ sel chs, chs = chaptersOf sel →
      (innerFor top_n sel chs l).2.1 = chaptersOf (innerFor top_n sel chs l).1 := by
  induction l with
  | nil => intro sel chs h; simpa [innerFor] using h
  | cons v rest ih =>
    intro sel chs h
    by_cases hmem : v.chapter ∈ chs
    · simpa [innerFor, hmem] using ih sel chs h
    · have hstep : insert v.chapter chs = chaptersOf (sel ++ [v]) := by
        rw [chaptersOf_append, h, Finset.union_comm]
        simp [chaptersOf, Finset.insert_eq]
      by_cases hlen : top_n ≤ sel.length + 1
      · simp only [innerFor, if_neg hmem]
        rw [if_pos (by simpa using hlen)]
        exact hstep
      · simp only [innerFor, if_neg hmem]
        rw [if_neg (by simpa using hlen)]
        exact ih (sel ++ [v]) (insert v.chapter chs) hstep

lemma innerFor_counts (top_n : ℕ) (l : List ScoredVerse) :
    ∀ sel chs, (∀ c, countChapter c sel ≤ 1) → chs = chaptersOf sel →
      ∀ c, countChapter c (innerFor top_n sel chs l).1 ≤ 1 := by
  induction l with
  | nil => intro sel chs h1 _ c; simpa [innerFor] using h1 c
  | cons v rest ih =>
    intro sel chs h1 h2
    by_cases hmem : v.chapter ∈ chs
    · intro c
      simpa [innerFor, hmem] using ih sel chs h1 h2 c
    · have hcounts : ∀ c, countChapter c (sel ++ [v]) ≤ 1 := by
        intro c
        rw [countChapter_append, countChapter_singleton]
        by_cases hc : v.chapter = c
        · have hz : countChapter c sel = 0 :=
            countChapter_eq_zero c sel (by rw [← h2, ← hc]; exact hmem)
          rw [hz, if_pos hc]
        · rw [if_neg hc]
          have := h1 c
          omega
      have hstep : insert v.chapter chs = chaptersOf (sel ++ [v]) := by
        rw [chaptersOf_append, h2, Finset.union_comm]
        simp [chaptersOf, Finset.insert_eq]
      by_cases hlen : top_n ≤ sel.length + 1
      · intro c
        simp only [innerFor, if_neg hmem]
        rw [if_pos (by simpa using hlen)]
        exact hcounts c
      · intro c
        simp only [innerFor, if_neg hmem]
        rw [if_neg (by simpa using hlen)]
        exact ih (sel ++ [v]) (insert v.chapter chs) hcounts hstep c

lemma chaptersOf_cons (v : ScoredVerse) (l : List ScoredVerse) :
    chaptersOf (v :: l) = insert v.chapter (chaptersOf l) := by
  simp [chaptersOf]

lemma innerFor_reach (top_n : ℕ) (l : List ScoredVerse) :
    ∀ sel chs, sel.length < top_n →
      top_n ≤ sel.length + (chaptersOf l \ chs).card →
      (innerFor top_n sel chs l).1.length = top_n := by
  induction l with
  | nil =>
    intro sel chs h h2
    simp only [chaptersOf, List.map_nil, List.toFinset_nil,
      Finset.empty_sdiff, Finset.card_empty] at h2
    omega
  | cons v rest ih =>
    intro sel chs h h2
    by_cases hmem : v.chapter ∈ chs
    · have hsd : chaptersOf (v :: rest) \ chs = chaptersOf rest \ chs := by
        rw [chaptersOf_cons, Finset.insert_sdiff_of_mem _ hmem]
      rw [hsd] at h2
      simpa [innerFor, hmem] using ih sel chs h h2
    · by_cases hlen : top_n ≤ sel.length + 1
      · simp only [innerFor, if_neg hmem]
        rw [if_pos (by simpa using hlen)]
        simp
        omega
      · simp only [innerFor, if_neg hmem]
        rw [if_neg (by simpa using hlen)]
        apply ih (sel ++ [v]) (insert v.chapter chs) (by simp; omega)
        have hsub : chaptersOf (v :: rest) \ chs ⊆
            insert v.chapter (chaptersOf rest \ insert v.chapter chs) := by
          intro x hx
          rw [chaptersOf_cons] at hx
          rcases Finset.mem_sdiff.mp hx with ⟨hx1, hx2⟩
          rcases Finset.mem_insert.mp hx1 with hxv | hxr
          · exact hxv ▸ Finset.mem_insert_self _ _
          · by_cases hxv : x = v.chapter
            · exact hxv ▸ Finset.mem_insert_self _ _
            · refine Finset.mem_insert_of_mem (Finset.mem_sdiff.mpr ⟨hxr, ?_⟩)
              simp only [Finset.mem_insert]
              push_neg
              exact ⟨hxv, hx2⟩
        have hcard : (chaptersOf (v :: rest) \ chs).card ≤
            1 + (chaptersOf rest \ insert v.chapter chs).card := by
          calc (chaptersOf (v :: rest) \ chs).card
              ≤ (insert v.chapter (chaptersOf rest \ insert v.chapter chs)).card :=
                Finset.card_le_card hsub
            _ ≤ (chaptersOf rest \ insert v.chapter chs).card + 1 :=
                Finset.card_insert_le _ _
            _ = 1 + (chaptersOf rest \ insert v.chapter chs).card := by omega
        simp only [List.length_append, List.length_cons, List.length_nil]
        omega

lemma innerFor_cover (top_n : ℕ) (l : List ScoredVerse) :
    ∀ sel chs, (innerFor top_n sel chs l).1.length < top_n →
      chaptersOf l ⊆ (innerFor top_n sel chs l).2.1 := by
  induction l with
  | nil => intro sel chs _; simp [chaptersOf]
  | cons v rest ih =>
    intro sel chs hlt
    rw [chaptersOf_cons]
    by_cases hmem : v.chapter ∈ chs
    · simp only [innerFor, if_pos hmem] at hlt ⊢
      refine Finset.insert_subset ?_ (ih sel chs hlt)
      exact innerFor_chs_mono top_n rest sel chs hmem
    · by_cases hlen : top_n ≤ sel.length + 1
      · exfalso
        simp only [innerFor, if_neg hmem] at hlt
        rw [if_pos (by simpa using hlen)] at hlt
        simp at hlt
        omega
      · simp only [innerFor, if_neg hmem] at hlt ⊢
        rw [if_neg (by simpa using hlen)] at hlt ⊢
        refine Finset.insert_subset ?_
          (ih (sel ++ [v]) (insert v.chapter chs) hlt)
        exact innerFor_chs_mono top_n rest (sel ++ [v]) (insert v.chapter chs)
          (Finset.mem_insert_self _ _)

lemma selectLoop_prefix (top_n : ℕ) :
    ∀ fuel sel chs rem, ∃ t, selectLoop top_n fuel sel chs rem = sel ++ t := by
  intro fuel
  induction fuel with
  | zero => intro sel chs rem; exact ⟨[], by simp [selectLoop]⟩
  | succ fuel ih =>
    intro sel chs rem
    by_cases hcond : sel.length < top_n ∧ rem ≠ []
    · simp only [selectLoop, if_pos hcond]
      by_cases hr1 : (innerFor top_n sel chs rem).1.length < top_n
      · rw [if_pos hr1]
        rcases hrem : (innerFor top_n sel chs rem).2.2 with _ | ⟨v, rest⟩
        · dsimp only
          exact innerFor_sel_prefix top_n rem sel chs
        · obtain ⟨t1, ht1⟩ := innerFor_sel_prefix top_n rem sel chs
          obtain ⟨t2, ht2⟩ :=
            ih ((innerFor top_n sel chs rem).1 ++ [v])
              (innerFor top_n sel chs rem).2.1 rest
          refine ⟨t1 ++ [v] ++ t2, ?_⟩
          dsimp only
          rw [ht2, ht1]
          simp
      · rw [if_neg hr1]
        exact innerFor_sel_prefix top_n rem sel chs
    · simp only [selectLoop, if_neg hcond]
      exact ⟨[], by simp⟩

lemma selectLoop_length (top_n : ℕ) :
    ∀ fuel sel chs rem, rem.length < fuel → sel.length ≤ top_n →
      (selectLoop top_n fuel sel chs rem).length =
        min top_n (sel.length + rem.length) := by
  intro fuel
  induction fuel with
  | zero => intro sel chs rem h; omega
  | succ fuel ih =>
    intro sel chs rem hfuel hsel
    by_cases hcond : sel.length < top_n ∧ rem ≠ []
    · have hcons := innerFor_conserve top_n rem sel chs
      have hle := innerFor_sel_le top_n rem sel chs hcond.1
      obtain ⟨t1, ht1⟩ := innerFor_sel_prefix top_n rem sel chs
      have hge : sel.length ≤ (innerFor top_n sel chs rem).1.length := by
        rw [ht1]; simp
      simp only [selectLoop, if_pos hcond]
      by_cases hr1 : (innerFor top_n sel chs rem).1.length < top_n
      · rw [if_pos hr1]
        rcases hrem : (innerFor top_n sel chs rem).2.2 with _ | ⟨v, rest⟩
        · dsimp only
          rw [hrem] at hcons
          simp at hcons
          omega
        · dsimp only
          rw [hrem] at hcons
          simp only [List.length_cons] at hcons
          have hrest : rest.length < fuel := by omega
          have hsel2 : ((innerFor top_n sel chs rem).1 ++ [v]).length ≤ top_n := by
            simp
            omega
          rw [ih ((innerFor top_n sel chs rem).1 ++ [v])
            (innerFor top_n sel chs rem).2.1 rest hrest hsel2]
          simp
          omega
      · rw [if_neg hr1]
        omega
    · rw [not_and_or] at hcond
      simp only [selectLoop]
      rw [if_neg (by rw [not_and_or]; exact hcond)]
      rcases hcond with hc | hc
      · have : sel.length = top_n := by omega
        omega
      · have : rem = [] := by simpa using hc
        subst this
        simp
        omega

lemma selectLoop_counts_or_cover (top_n : ℕ) (fuel : ℕ) (sel : List ScoredVerse)
    (chs : Finset ℕ) (rem : List ScoredVerse) (hchs : chs = chaptersOf sel)
    (hcnt : ∀ c, countChapter c sel ≤ 1) :
    (∀ c, countChapter c (selectLoop top_n fuel sel chs rem) ≤ 1) ∨
      chaptersOf sel ∪ chaptersOf rem ⊆
        chaptersOf (selectLoop top_n fuel sel chs rem) := by
  rcases fuel with _ | fuel
  · left; simpa [selectLoop] using hcnt
  by_cases hcond : sel.length < top_n ∧ rem ≠ []
  · simp only [selectLoop, if_pos hcond]
    by_cases hr1 : (innerFor top_n sel chs rem).1.length < top_n
    · rw [if_pos hr1]
      rcases hrem : (innerFor top_n sel chs rem).2.2 with _ | ⟨v, rest⟩
      · left
        dsimp only
        exact innerFor_counts top_n rem sel chs hcnt hchs
      · right
        dsimp only
        obtain ⟨t2, ht2⟩ := selectLoop_prefix top_n fuel
          ((innerFor top_n sel chs rem).1 ++ [v])
          (innerFor top_n sel chs rem).2.1 rest
        rw [ht2]
        obtain ⟨t1, ht1⟩ := innerFor_sel_prefix top_n rem sel chs
        have hcover : chaptersOf rem ⊆ chaptersOf (innerFor top_n sel chs rem).1 := by
          rw [← innerFor_chs_eq top_n rem sel chs hchs]
          exact innerFor_cover top_n rem sel chs hr1
        have hsel : chaptersOf sel ⊆ chaptersOf (innerFor top_n sel chs rem).1 := by
          rw [ht1, chaptersOf_append]
          exact Finset.subset_union_left
        have hmono : chaptersOf (innerFor top_n sel chs rem).1 ⊆
            chaptersOf ((innerFor top_n sel chs rem).1 ++ [v] ++ t2) := by
          rw [chaptersOf_append, chaptersOf_append]
          exact Finset.subset_union_left.trans Finset.subset_union_left
        exact Finset.union_subset (hsel.trans hmono) (hcover.trans hmono)
    · rw [if_neg hr1]
      left
      exact innerFor_counts top_n rem sel chs hcnt hchs
  · left
    simp only [selectLoop]
    rw [if_neg hcond]
    exact hcnt

/-- Claim C4: for every ranked candidate list and every top_n at most the
number of distinct chapters present, the selection holds at most one verse
per chapter; and a chapter contributes a second verse only after every
distinct chapter of the ranked list is represented in the selection. -/
theorem C4_chapter_diversity (ranked : List ScoredVerse) (top_n : ℕ) :
    (top_n ≤ (chaptersOf ranked).card →
      ∀ c, countChapter c (selectVerses top_n ranked) ≤ 1) ∧
    ((∃ c, 2 ≤ countChapter c (selectVerses top_n ranked)) →
      chaptersOf ranked ⊆ chaptersOf (selectVerses top_n ranked)) := by
  constructor
  · intro hle c
    rcases Nat.eq_zero_or_pos top_n with h0 | hpos
    · subst h0
      simp [selectVerses, selectLoop, countChapter]
    · have hne : ranked ≠ [] := by
        intro h
        subst h
        simp [chaptersOf] at hle
        omega
      rw [selectVerses]
      simp only [selectLoop]
      rw [if_pos ⟨by simpa using hpos, hne⟩]
      have hreach : (innerFor top_n [] ∅ ranked).1.length = top_n := by
        apply innerFor_reach top_n ranked [] ∅ (by simpa using hpos)
        simpa [Finset.sdiff_empty] using hle
      rw [if_neg (by omega)]
      exact innerFor_counts top_n ranked [] ∅
        (by intro c2; simp [countChapter]) (by simp [chaptersOf]) c
  · rintro ⟨c, hc⟩
    rcases selectLoop_counts_or_cover top_n (ranked.length + 1) [] ∅ ranked
        (by simp [chaptersOf]) (by intro c2; simp [countChapter]) with h | h
    · rw [selectVerses] at hc
      exact absurd hc (by have := h c; omega)
    · rw [selectVerses]
      have : chaptersOf ([] : List ScoredVerse) ∪ chaptersOf ranked =
          chaptersOf ranked := by simp [chaptersOf]
      rw [this] at h
      exact h

/-- Witness for C4 on a concrete ranked list with chapters 1, 1, 2 and
top_n = 2: at most one selected verse in each chapter. -/
theorem C4_chapter_diversity_witness :
    countChapter 1 (selectVerses 2
        [⟨0, 0, 1, "1.1"⟩, ⟨1, 0, 1, "1.2"⟩, ⟨2, 0, 2, "2.1"⟩]) ≤ 1 ∧
    countChapter 2 (selectVerses 2
        [⟨0, 0, 1, "1.1"⟩, ⟨1, 0, 1, "1.2"⟩, ⟨2, 0, 2, "2.1"⟩]) ≤ 1 :=
  ⟨(C4_chapter_diversity
      [⟨0, 0, 1, "1.1"⟩, ⟨1, 0, 1, "1.2"⟩, ⟨2, 0, 2, "2.1"⟩] 2).1 (by decide) 1,
   (C4_chapter_diversity
      [⟨0, 0, 1, "1.1"⟩, ⟨1, 0, 1, "1.2"⟩, ⟨2, 0, 2, "2.1"⟩] 2).1 (by decide) 2⟩

/-- Number of selected rows of a given chapter. -/
def chapterMultiplicity (c : ℕ) (V : List Verse) : ℕ :=
  V.countP (fun v => decide (v.chapter = c))

lemma update_usage_stats_verse (V : List Verse) :
    ∀ (u : UsageState) (k : String),
      (update_usage_stats u V).verse_usage k =
        u.verse_usage k + V.countP (fun v => decide (v.vid = k)) := by
  induction V with
  | nil => intro u k; simp [update_usage_stats]
  | cons v V ih =>
    intro u k
    simp only [update_usage_stats] at ih ⊢
    rw [List.foldl_cons, ih]
    simp only [List.countP_cons]
    by_cases hk : k = v.vid
    · rw [if_pos hk]
      rw [if_pos (by simp [hk] : decide (v.vid = k) = true)]
      omega
    · rw [if_neg hk]
      rw [if_neg (by simpa using fun h => hk h.symm)]
      omega

lemma update_usage_stats_chapter (V : List Verse) :
    ∀ (u : UsageState) (c : ℕ),
      (update_usage_stats u V).chapter_usage c =
        u.chapter_usage c + chapterMultiplicity c V := by
  induction V with
  | nil => intro u c; simp [update_usage_stats, chapterMultiplicity]
  | cons v V ih =>
    intro u c
    simp only [update_usage_stats, chapterMultiplicity] at ih ⊢
    rw [List.foldl_cons, ih]
    simp only [List.countP_cons]
    by_cases hc : c = v.chapter
    · rw [if_pos hc]
      rw [if_pos (by simp [hc] : decide (v.chapter = c) = true)]
      omega
    · rw [if_neg hc]
      rw [if_neg (by simpa using fun h => hc h.symm)]
      omega

lemma update_usage_stats_last (V : List Verse) :
    ∀ u : UsageState, (update_usage_stats u V).last_verses = u.last_verses := by
  induction V with
  | nil => intro u; simp [update_usage_stats]
  | cons v V ih =>
    intro u
    simp only [update_usage_stats] at ih ⊢
    rw [List.foldl_cons, ih]

lemma countP_vid_eq_one (V : List Verse) (v : Verse)
    (hnodup : (V.map Verse.vid).Nodup) (hmem : v ∈ V) :
    V.countP (fun w => decide (w.vid = v.vid)) = 1 := by
  induction V with
  | nil => cases hmem
  | cons w V ih =>
    rw [List.map_cons, List.nodup_cons] at hnodup
    rw [List.countP_cons]
    rcases List.mem_cons.mp hmem with hv | hv
    · subst hv
      have hz : V.countP (fun x => decide (x.vid = v.vid)) = 0 := by
        rw [List.countP_eq_zero]
        intro x hx
        simp only [decide_eq_true_eq]
        intro hcontra
        exact hnodup.1 (hcontra ▸ List.mem_map_of_mem Verse.vid hx)
      simp [hz]
    · have hne : w.vid ≠ v.vid := by
        intro hcontra
        exact hnodup.1 (hcontra ▸ List.mem_map_of_mem Verse.vid hv)
      rw [ih hnodup.2 hv]
      simp [hne]

/-- Claim C5: recording a selection V increments the usage count of every
selected verse id by exactly 1 (ids of V distinct), increments each
chapter count by the number of selected verses of that chapter, leaves
counts of non-selected verse ids and chapters unchanged, and replaces the
last-served set with exactly the verse ids of V. -/
theorem C5_record_selection (u : UsageState) (V : List Verse)
    (hnodup : (V.map Verse.vid).Nodup) :
    (∀ v ∈ V, (set_last_verses (update_usage_stats u V) V).verse_usage v.vid =
        u.verse_usage v.vid + 1) ∧
    (∀ c, (set_last_verses (update_usage_stats u V) V).chapter_usage c =
        u.chapter_usage c + chapterMultiplicity c V) ∧
    (∀ k, k ∉ V.map Verse.vid →
      (set_last_verses (update_usage_stats u V) V).verse_usage k =
        u.verse_usage k) ∧
    (∀ c, c ∉ V.map Verse.chapter →
      (set_last_verses (update_usage_stats u V) V).chapter_usage c =
        u.chapter_usage c) ∧
    (set_last_verses (update_usage_stats u V) V).last_verses =
      (V.map Verse.vid).toFinset := by
  refine ⟨?_, ?_, ?_, ?_, ?_⟩
  · intro v hv
    show (update_usage_stats u V).verse_usage v.vid = _
    rw [update_usage_stats_verse, countP_vid_eq_one V v hnodup hv]
  · intro c
    show (update_usage_stats u V).chapter_usage c = _
    rw [update_usage_stats_chapter]
  · intro k hk
    show (update_usage_stats u V).verse_usage k = _
    rw [update_usage_stats_verse]
    have hz : V.countP (fun v => decide (v.vid = k)) = 0 := by
      rw [List.countP_eq_zero]
      intro v hv
      simp only [decide_eq_true_eq]
      intro hcontra
      exact hk (hcontra ▸ List.mem_map_of_mem Verse.vid hv)
    rw [hz]
    omega
  · intro c hc
    show (update_usage_stats u V).chapter_usage c = _
    rw [update_usage_stats_chapter]
    have hz : chapterMultiplicity c V = 0 := by
      rw [chapterMultiplicity, List.countP_eq_zero]
      intro v hv
      simp only [decide_eq_true_eq]
      intro hcontra
      exact hc (hcontra ▸ List.mem_map_of_mem Verse.chapter hv)
    rw [hz]
    omega
  · rfl

/-- Witness for C5 at a concrete selection of two verses from an empty
initial state. -/
theorem C5_record_selection_witness :
    (set_last_verses
        (update_usage_stats UsageState.init [⟨1, 1, "a", ""⟩, ⟨2, 1, "b", ""⟩])
        [⟨1, 1, "a", ""⟩, ⟨2, 1, "b", ""⟩]).verse_usage
      (Verse.vid ⟨1, 1, "a", ""⟩) =
        UsageState.init.verse_usage (Verse.vid ⟨1, 1, "a", ""⟩) + 1 ∧
    (set_last_verses
        (update_usage_stats UsageState.init [⟨1, 1, "a", ""⟩, ⟨2, 1, "b", ""⟩])
        [⟨1, 1, "a", ""⟩, ⟨2, 1, "b", ""⟩]).last_verses =
      ([⟨1, 1, "a", ""⟩, ⟨2, 1, "b", ""⟩].map Verse.vid).toFinset :=
  ⟨(C5_record_selection UsageState.init
      [⟨1, 1, "a", ""⟩, ⟨2, 1, "b", ""⟩] (by decide)).1 ⟨1, 1, "a", ""⟩
      (by decide),
   (C5_record_selection UsageState.init
      [⟨1, 1, "a", ""⟩, ⟨2, 1, "b", ""⟩] (by decide)).2.2.2.2⟩

lemma verse_scores_length (nlp : NLP) (O : Oracle) (df : List Verse)
    (u : UsageState) (jitter : ℕ → ℚ) (q : String) :
    (verse_scores nlp O df u jitter q).length = df.length := by
  simp [verse_scores]

lemma rankedVerses_length (nlp : NLP) (O : Oracle) (df : List Verse)
    (u : UsageState) (jitter : ℕ → ℚ) (q : String) :
    (rankedVerses nlp O df u jitter q).length = df.length := by
  rw [rankedVerses, List.length_mergeSort]
  exact verse_scores_length nlp O df u jitter q

lemma selectVerses_length (top_n : ℕ) (ranked : List ScoredVerse) :
    (selectVerses top_n ranked).length = min top_n ranked.length := by
  rw [selectVerses]
  rw [selectLoop_length top_n (ranked.length + 1) [] ∅ ranked
    (by omega) (by simp)]
  simp

lemma selected_verses_length (nlp : NLP) (O : Oracle) (df : List Verse)
    (u : UsageState) (jitter : ℕ → ℚ) (q : String) (top_n : ℕ) :
    (selected_verses nlp O df u jitter q top_n).length = min top_n df.length := by
  rw [selected_verses, selectVerses_length, rankedVerses_length]

lemma find_eq_error (nlp : NLP) (O : Oracle) (df : List Verse)
    (u : UsageState) (jitter : ℕ → ℚ) (q : String) (top_n : ℕ)
    (h : (selected_verses nlp O df u jitter q top_n).length = 0) :
    find_relevant_verses nlp O df u jitter q top_n =
      ([], post_state nlp O df u jitter q top_n, true) := by
  rw [find_relevant_verses, find_relevant_verses_run, if_pos h]

lemma find_eq_ok (nlp : NLP) (O : Oracle) (df : List Verse)
    (u : UsageState) (jitter : ℕ → ℚ) (q : String) (top_n : ℕ)
    (h : ¬(selected_verses nlp O df u jitter q top_n).length = 0) :
    find_relevant_verses nlp O df u jitter q top_n =
      (selected_rows nlp O df u jitter q top_n,
        post_state nlp O df u jitter q top_n, false) := by
  rw [find_relevant_verses, find_relevant_verses_run, if_neg h]

lemma find_relevant_verses_length (nlp : NLP) (O : Oracle) (df : List Verse)
    (u : UsageState) (jitter : ℕ → ℚ) (q : String) (top_n : ℕ) :
    (find_relevant_verses nlp O df u jitter q top_n).1.length =
      min top_n df.length := by
  have hlen := selected_verses_length nlp O df u jitter q top_n
  by_cases h0 : (selected_verses nlp O df u jitter q top_n).length = 0
  · rw [find_eq_error nlp O df u jitter q top_n h0]
    simp only [List.length_nil]
    omega
  · rw [find_eq_ok nlp O df u jitter q top_n h0]
    show (selected_rows nlp O df u jitter q top_n).length = _
    rw [selected_rows, List.length_map]
    exact hlen

lemma calculate_similarity_empty_question (O : Oracle) (q t : String)
    (hq : pyWords q = []) : calculate_similarity O q t = 0 := by
  have hjac : jaccard_sim q t = 0 := by
    have hset : tokenFinset q = ∅ := by simp [tokenFinset, hq]
    unfold jaccard_sim
    dsimp only
    rw [hset, Finset.empty_inter, Finset.card_empty]
    split
    · simp
    · rfl
  have hsem : semantic_sim O q t = 0 := by
    unfold semantic_sim
    have hw : lemmaWords O q = [] := by simp [lemmaWords, setWords, hq]
    rw [if_neg (fun hc => hc.1 hw)]
  rw [calculate_similarity, hjac, hsem]
  ring

lemma verse_scores_zero_of_empty_question (nlp : NLP) (O : Oracle)
    (df : List Verse) (u : UsageState) (jitter : ℕ → ℚ) (q : String)
    (hq : pyWords (preprocess_text nlp q) = []) :
    ∀ s ∈ verse_scores nlp O df u jitter q, s.score = 0 := by
  intro s hs
  rw [verse_scores] at hs
  simp only [List.mem_map] at hs
  obtain ⟨idx, _, hmk⟩ := hs
  subst hmk
  show calculate_verse_score u _ _ _ _ = 0
  rw [calculate_similarity_empty_question O _ _ hq, calculate_verse_score]
  split <;> ring

/-- Claim C2, counterexample: on a nonempty corpus, a whitespace-only
question does not yield an empty result; the default top_n = 5 selection
returns corpus verses (all with zero similarity). -/
theorem C2_empty_question_counterexample :
    (find_relevant_verses plainNLP noRel [⟨1, 1, "dharma", ""⟩] UsageState.init
        (fun _ => 1) "   " 5).1 = [⟨1, 1, "dharma", ""⟩] := by
  have hvs : verse_scores plainNLP noRel [⟨1, 1, "dharma", ""⟩] UsageState.init
      (fun _ => 1) "   " =
      [{ index := 0
         score := calculate_verse_score UsageState.init
           (calculate_similarity noRel (preprocess_text plainNLP "   ")
             (preprocess_text plainNLP "dharma"))
           (verse_key 1 1) 1 1
         chapter := 1
         verse_id := verse_key 1 1 }] := by
    simp [verse_scores, List.range_succ]
  have hsel : selected_verses plainNLP noRel [⟨1, 1, "dharma", ""⟩]
      UsageState.init (fun _ => 1) "   " 5 =
      [{ index := 0
         score := calculate_verse_score UsageState.init
           (calculate_similarity noRel (preprocess_text plainNLP "   ")
             (preprocess_text plainNLP "dharma"))
           (verse_key 1 1) 1 1
         chapter := 1
         verse_id := verse_key 1 1 }] := by
    rw [selected_verses, rankedVerses, hvs, List.mergeSort_singleton]
    simp [selectVerses, selectLoop, innerFor]
  rw [find_eq_ok plainNLP noRel [⟨1, 1, "dharma", ""⟩] UsageState.init
    (fun _ => 1) "   " 5 (by rw [hsel]; simp)]
  show selected_rows plainNLP noRel [⟨1, 1, "dharma", ""⟩] UsageState.init
    (fun _ => 1) "   " 5 = _
  rw [selected_rows, hsel]
  simp

/-- Claim C2, amended: a question whose normalized form has no tokens (in
particular an empty or whitespace-only question) does not raise, but the
result is not empty: it holds exactly min(top_n, corpus size) verses —
nonempty whenever the corpus is nonempty and top_n is at least 1 — and
every candidate score in the scoring pass is 0. -/
theorem C2_empty_question_behavior (nlp : NLP) (O : Oracle) (df : List Verse)
    (u : UsageState) (jitter : ℕ → ℚ) (q : String) (top_n : ℕ)
    (hq : pyWords (preprocess_text nlp q) = []) (hdf : df ≠ [])
    (htop : 1 ≤ top_n) :
    (find_relevant_verses nlp O df u jitter q top_n).1.length =
        min top_n df.length ∧
      (find_relevant_verses nlp O df u jitter q top_n).1 ≠ [] ∧
      (find_relevant_verses nlp O df u jitter q top_n).2.2 = false ∧
      ∀ s ∈ verse_scores nlp O df u jitter q, s.score = 0 := by
  have hlen := find_relevant_verses_length nlp O df u jitter q top_n
  have hdfpos : 0 < df.length := List.length_pos.mpr hdf
  refine ⟨hlen, ?_, ?_, verse_scores_zero_of_empty_question nlp O df u jitter q hq⟩
  · intro hnil
    rw [hnil] at hlen
    simp at hlen
    omega
  · have hsel := selected_verses_length nlp O df u jitter q top_n
    rw [find_eq_ok nlp O df u jitter q top_n (by omega)]

/-- Witness for C2 amended at a concrete whitespace question, singleton
corpus, and default top_n = 5. -/
theorem C2_empty_question_behavior_witness :
    (find_relevant_verses plainNLP noRel [⟨1, 1, "dharma", ""⟩] UsageState.init
        (fun _ => 1) "   " 5).1.length =
      min 5 [(⟨1, 1, "dharma", ""⟩ : Verse)].length ∧
    (find_relevant_verses plainNLP noRel [⟨1, 1, "dharma", ""⟩] UsageState.init
        (fun _ => 1) "   " 5).1 ≠ [] ∧
    (find_relevant_verses plainNLP noRel [⟨1, 1, "dharma", ""⟩] UsageState.init
        (fun _ => 1) "   " 5).2.2 = false ∧
    ∀ s ∈ verse_scores plainNLP noRel [⟨1, 1, "dharma", ""⟩] UsageState.init
        (fun _ => 1) "   ", s.score = 0 :=
  C2_empty_question_behavior plainNLP noRel [⟨1, 1, "dharma", ""⟩]
    UsageState.init (fun _ => 1) "   " 5 (by decide) (by decide) (by decide)

/-- Claim C6: whenever the retrieval body raises (the failure point
reachable in the model is the average_score division on an empty
selection), find_relevant_verses returns the empty result set (the empty
verse list, standing for the empty DataFrame with the corpus columns)
instead of propagating the exception, and emits an error event to the
observability sink (the Bool flag models the monitor.log_error call in
the except handler). -/
theorem C6_error_path_returns_empty (nlp : NLP) (O : Oracle) (df : List Verse)
    (u : UsageState) (jitter : ℕ → ℚ) (q : String) (top_n : ℕ)
    (h : (find_relevant_verses_run nlp O df u jitter q top_n).1 =
      Except.error ()) :
    (find_relevant_verses nlp O df u jitter q top_n).1 = [] ∧
      (find_relevant_verses nlp O df u jitter q top_n).2.2 = true := by
  by_cases h0 : (selected_verses nlp O df u jitter q top_n).length = 0
  · rw [find_eq_error nlp O df u jitter q top_n h0]
    exact ⟨rfl, rfl⟩
  · exfalso
    rw [find_relevant_verses_run, if_neg h0] at h
    simp at h

/-- Witness for C6 at a concrete erroring input: top_n = 0 gives an empty
selection, so the metrics division raises. -/
theorem C6_error_path_returns_empty_witness :
    (find_relevant_verses plainNLP noRel [⟨1, 1, "t", ""⟩] UsageState.init
        (fun _ => 1) "q" 0).1 = [] ∧
      (find_relevant_verses plainNLP noRel [⟨1, 1, "t", ""⟩] UsageState.init
        (fun _ => 1) "q" 0).2.2 = true :=
  C6_error_path_returns_empty plainNLP noRel [⟨1, 1, "t", ""⟩] UsageState.init
    (fun _ => 1) "q" 0
    (by rw [find_relevant_verses_run,
          if_pos (by rw [selected_verses_length]; simp)])

/-- Claim C7, counterexample: a call that ends in the error path does NOT
always leave the usage state unchanged. With top_n = 0 the selection is
empty, so the metrics division raises — but only after
st.session_state.last_verses has already been reset to the empty set,
erasing the previous last-served set. -/
theorem C7_error_path_counterexample :
    (find_relevant_verses plainNLP noRel [⟨1, 1, "t", ""⟩]
        ⟨fun _ => 0, fun _ => 0, {"1.1"}⟩ (fun _ => 1) "q" 0).2.2 = true ∧
    (find_relevant_verses plainNLP noRel [⟨1, 1, "t", ""⟩]
        ⟨fun _ => 0, fun _ => 0, {"1.1"}⟩ (fun _ => 1) "q" 0).2.1.last_verses ≠
      (⟨fun _ => 0, fun _ => 0, {"1.1"}⟩ : UsageState).last_verses := by
  have h0 : (selected_verses plainNLP noRel [⟨1, 1, "t", ""⟩]
      ⟨fun _ => 0, fun _ => 0, {"1.1"}⟩ (fun _ => 1) "q" 0).length = 0 := by
    rw [selected_verses_length]
    simp
  have hrows : selected_rows plainNLP noRel [⟨1, 1, "t", ""⟩]
      ⟨fun _ => 0, fun _ => 0, {"1.1"}⟩ (fun _ => 1) "q" 0 = [] := by
    rw [selected_rows, List.length_eq_zero.mp h0]
    rfl
  rw [find_eq_error plainNLP noRel [⟨1, 1, "t", ""⟩]
    ⟨fun _ => 0, fun _ => 0, {"1.1"}⟩ (fun _ => 1) "q" 0 h0]
  refine ⟨rfl, ?_⟩
  show (post_state plainNLP noRel [⟨1, 1, "t", ""⟩]
    ⟨fun _ => 0, fun _ => 0, {"1.1"}⟩ (fun _ => 1) "q" 0).last_verses ≠ _
  rw [post_state, hrows]
  show (∅ : Finset String) ≠ {"1.1"}
  decide

/-- Claim C7, amended: on every call that ends in the error path, the
verse and chapter usage counters are left unchanged (the reachable error
fires only when the selection is empty, making update_usage_stats a
no-op), but last_verses has by then already been reset to the verse ids of
the empty selection, i.e. to the empty set — a partial update. -/
theorem C7_error_path_state (nlp : NLP) (O : Oracle) (df : List Verse)
    (u : UsageState) (jitter : ℕ → ℚ) (q : String) (top_n : ℕ)
    (h : (find_relevant_verses_run nlp O df u jitter q top_n).1 =
      Except.error ()) :
    (∀ k, (find_relevant_verses nlp O df u jitter q top_n).2.1.verse_usage k =
        u.verse_usage k) ∧
    (∀ c, (find_relevant_verses nlp O df u jitter q top_n).2.1.chapter_usage c =
        u.chapter_usage c) ∧
    (find_relevant_verses nlp O df u jitter q top_n).2.1.last_verses = ∅ := by
  have h0 : (selected_verses nlp O df u jitter q top_n).length = 0 := by
    by_contra h0
    rw [find_relevant_verses_run, if_neg h0] at h
    simp at h
  have hrows : selected_rows nlp O df u jitter q top_n = [] := by
    rw [selected_rows, List.length_eq_zero.mp h0]
    rfl
  rw [find_eq_error nlp O df u jitter q top_n h0]
  refine ⟨?_, ?_, ?_⟩
  · intro k
    show (post_state nlp O df u jitter q top_n).verse_usage k = _
    rw [post_state, hrows]
    rfl
  · intro c
    show (post_state nlp O df u jitter q top_n).chapter_usage c = _
    rw [post_state, hrows]
    rfl
  · show (post_state nlp O df u jitter q top_n).last_verses = ∅
    rw [post_state, hrows]
    rfl

/-- Witness for C7 amended at the concrete erroring input top_n = 0. -/
theorem C7_error_path_state_witness :
    (find_relevant_verses plainNLP noRel [⟨1, 1, "t", ""⟩] UsageState.init
        (fun _ => 1) "q" 0).2.1.verse_usage "1.1" =
      UsageState.init.verse_usage "1.1" ∧
    (find_relevant_verses plainNLP noRel [⟨1, 1, "t", ""⟩] UsageState.init
        (fun _ => 1) "q" 0).2.1.last_verses = ∅ := by
  have h := C7_error_path_state plainNLP noRel [⟨1, 1, "t", ""⟩]
    UsageState.init (fun _ => 1) "q" 0
    (by rw [find_relevant_verses_run,
          if_pos (by rw [selected_verses_length]; simp)])
  exact ⟨h.1 "1.1", h.2.2⟩

lemma calculate_verse_score_eq (u : UsageState) (sim : ℚ) (vid : String)
    (ch : ℕ) (j : ℚ) :
    calculate_verse_score u sim vid ch j =
      sim * ((1 / (1 + 0.2 * (u.verse_usage vid : ℚ))) *
        (if vid ∈ u.last_verses then 0.5 else 1)) *
      (1 / (1 + 0.1 * (u.chapter_usage ch : ℚ))) * j := by
  rw [calculate_verse_score]
  by_cases hmem : vid ∈ u.last_verses
  · simp only [if_pos hmem]
  · simp only [if_neg hmem]
    ring

/-- Claim C8, counterexample: with base similarity 0, a strictly higher
prior usage count does not give a strictly lower final score — both final
scores are 0. The claim as stated omits the base > 0 and equal
chapter-boost side conditions. -/
theorem C8_penalty_effect_counterexample :
    (⟨fun k => if k = "1.1" then 1 else 0, fun _ => 0, ∅⟩ :
        UsageState).verse_usage "2.1" <
      (⟨fun k => if k = "1.1" then 1 else 0, fun _ => 0, ∅⟩ :
        UsageState).verse_usage "1.1" ∧
    ¬ (calculate_verse_score
          ⟨fun k => if k = "1.1" then 1 else 0, fun _ => 0, ∅⟩ 0 "1.1" 1 1 <
        calculate_verse_score
          ⟨fun k => if k = "1.1" then 1 else 0, fun _ => 0, ∅⟩ 0 "2.1" 2 1) := by
  refine ⟨by decide, ?_⟩
  have h1 : calculate_verse_score
      ⟨fun k => if k = "1.1" then 1 else 0, fun _ => 0, ∅⟩ 0 "1.1" 1 1 = 0 := by
    rw [calculate_verse_score]
    split <;> ring
  have h2 : calculate_verse_score
      ⟨fun k => if k = "1.1" then 1 else 0, fun _ => 0, ∅⟩ 0 "2.1" 2 1 = 0 := by
    rw [calculate_verse_score]
    split <;> ring
  rw [h1, h2]
  simp

/-- Claim C8, amended: assuming a strictly positive base similarity,
positive jitter held equal, and equal chapter usage (so the chapter boost
is equal), the verse with the strictly higher prior usage count (same
last-served membership), or the one in the last-served set (the other
absent, same usage count), receives a strictly lower final score. -/
theorem C8_penalty_effect (u : UsageState) (sim : ℚ) (vid1 vid2 : String)
    (ch1 ch2 : ℕ) (j : ℚ) (hsim : 0 < sim) (hj : 0 < j)
    (hch : u.chapter_usage ch1 = u.chapter_usage ch2) :
    ((u.verse_usage vid2 < u.verse_usage vid1 ∧
        (vid1 ∈ u.last_verses ↔ vid2 ∈ u.last_verses)) →
      calculate_verse_score u sim vid1 ch1 j <
        calculate_verse_score u sim vid2 ch2 j) ∧
    ((u.verse_usage vid1 = u.verse_usage vid2 ∧ vid1 ∈ u.last_verses ∧
        vid2 ∉ u.last_verses) →
      calculate_verse_score u sim vid1 ch1 j <
        calculate_verse_score u sim vid2 ch2 j) := by
  have hB : (0:ℚ) < 1 / (1 + 0.1 * (u.chapter_usage ch2 : ℚ)) := by positivity
  rw [calculate_verse_score_eq, calculate_verse_score_eq, hch]
  constructor
  · rintro ⟨husage, hiff⟩
    have hcast : (u.verse_usage vid2 : ℚ) < (u.verse_usage vid1 : ℚ) := by
      exact_mod_cast husage
    have hp : 1 / (1 + 0.2 * (u.verse_usage vid1 : ℚ)) <
        1 / (1 + 0.2 * (u.verse_usage vid2 : ℚ)) := by
      apply one_div_lt_one_div_of_lt
      · positivity
      · linarith
    apply mul_lt_mul_of_pos_right _ hj
    apply mul_lt_mul_of_pos_right _ hB
    apply mul_lt_mul_of_pos_left _ hsim
    by_cases h1 : vid1 ∈ u.last_verses
    · have h2 : vid2 ∈ u.last_verses := hiff.mp h1
      rw [if_pos h1, if_pos h2]
      exact mul_lt_mul_of_pos_right hp (by norm_num)
    · have h2 : vid2 ∉ u.last_verses := fun hh => h1 (hiff.mpr hh)
      rw [if_neg h1, if_neg h2]
      simpa using hp
  · rintro ⟨husage, h1, h2⟩
    rw [husage, if_pos h1, if_neg h2]
    apply mul_lt_mul_of_pos_right _ hj
    apply mul_lt_mul_of_pos_right _ hB
    apply mul_lt_mul_of_pos_left _ hsim
    have hp0 : (0:ℚ) < 1 / (1 + 0.2 * (u.verse_usage vid2 : ℚ)) := by positivity
    exact mul_lt_mul_of_pos_left (by norm_num) hp0

/-- Witness for C8 amended: a verse already used twice scores strictly
below an unused verse at equal base similarity 1 and jitter 1. -/
theorem C8_penalty_effect_witness :
    calculate_verse_score
        ⟨fun k => if k = "1.1" then 2 else 0, fun _ => 0, ∅⟩ 1 "1.1" 1 1 <
      calculate_verse_score
        ⟨fun k => if k = "1.1" then 2 else 0, fun _ => 0, ∅⟩ 1 "2.1" 1 1 :=
  (C8_penalty_effect ⟨fun k => if k = "1.1" then 2 else 0, fun _ => 0, ∅⟩ 1
      "1.1" "2.1" 1 1 1 (by norm_num) (by norm_num) rfl).1
    ⟨by decide, by simp⟩

lemma scoreGE_trans : ∀ a b c : ScoredVerse,
    scoreGE a b → scoreGE b c → scoreGE a c := by
  intro a b c hab hbc
  simp only [scoreGE, decide_eq_true_eq] at hab hbc ⊢
  exact le_trans hbc hab

lemma scoreGE_total : ∀ a b : ScoredVerse, scoreGE a b || scoreGE b a := by
  intro a b
  simp only [scoreGE, Bool.or_eq_true, decide_eq_true_eq]
  exact le_total _ _

lemma pair_sublist_of_lt {α : Type} :
    ∀ (l : List α) (i j : ℕ) (hi : i < l.length) (hj : j < l.length),
      i < j → List.Sublist [l.get ⟨i, hi⟩, l.get ⟨j, hj⟩] l := by
  intro l
  induction l with
  | nil => intro i j hi; simp at hi
  | cons a l ih =>
    intro i j hi hj hij
    cases i with
    | zero =>
      cases j with
      | zero => omega
      | succ j =>
        apply List.Sublist.cons₂
        rw [List.singleton_sublist]
        have hj2 : j < l.length := by simpa using hj
        exact List.get_mem l j hj2
    | succ i =>
      cases j with
      | zero => omega
      | succ j =>
        exact List.Sublist.cons a
          (ih i j (by simpa using hi) (by simpa using hj) (by omega))

lemma pair_sublist_positions {α : Type} :
    ∀ (l : List α) (a b : α), List.Sublist [a, b] l →
      ∃ i j, ∃ hi : i < l.length, ∃ hj : j < l.length,
        i < j ∧ l.get ⟨i, hi⟩ = a ∧ l.get ⟨j, hj⟩ = b := by
  intro l
  induction l with
  | nil => intro a b h; cases h
  | cons c l ih =>
    intro a b h
    cases h with
    | cons _ h =>
      obtain ⟨i, j, hi, hj, hij, ha, hb⟩ := ih a b h
      exact ⟨i + 1, j + 1, by simpa using hi, by simpa using hj,
        by omega, ha, hb⟩
    | cons₂ _ h =>
      have hb := List.singleton_sublist.mp h
      obtain ⟨j, hj, hbj⟩ := List.mem_iff_getElem.mp hb
      exact ⟨0, j + 1, by simp, by simpa using hj, by omega, rfl, hbj⟩

lemma verse_scores_pairwise_index (nlp : NLP) (O : Oracle) (df : List Verse)
    (u : UsageState) (jitter : ℕ → ℚ) (q : String) :
    (verse_scores nlp O df u jitter q).Pairwise
      (fun a b => a.index < b.index) := by
  rw [verse_scores]
  rw [List.pairwise_map]
  exact (List.pairwise_lt_range df.length).imp (fun h => by simpa using h)

lemma verse_scores_nodup (nlp : NLP) (O : Oracle) (df : List Verse)
    (u : UsageState) (jitter : ℕ → ℚ) (q : String) :
    (verse_scores nlp O df u jitter q).Nodup :=
  (verse_scores_pairwise_index nlp O df u jitter q).imp
    (fun h heq => by rw [heq] at h; omega)

/-- Claim C9: with the jitter pinned to 1.0 the ranking is deterministic —
any two jitter draws pinned to 1 produce the same candidate ordering — and
the ranked list is stable-descending by final score: scores are
non-increasing along the list, and candidates with equal scores appear in
original corpus order (strictly increasing corpus index). -/
theorem C9_rank_deterministic_stable (nlp : NLP) (O : Oracle) (df : List Verse)
    (u : UsageState) (j1 j2 : ℕ → ℚ) (q : String)
    (h1 : ∀ i, j1 i = 1) (h2 : ∀ i, j2 i = 1) :
    rankedVerses nlp O df u j1 q = rankedVerses nlp O df u j2 q ∧
    (rankedVerses nlp O df u j1 q).Pairwise (fun a b => b.score ≤ a.score) ∧
    (rankedVerses nlp O df u j1 q).Pairwise
      (fun a b => a.score = b.score → a.index < b.index) := by
  refine ⟨?_, ?_, ?_⟩
  · have hj : j1 = j2 := funext (fun i => (h1 i).trans (h2 i).symm)
    rw [hj]
  · rw [rankedVerses]
    exact (List.sorted_mergeSort scoreGE_trans scoreGE_total
        (verse_scores nlp O df u j1 q)).imp
      (fun h => by simpa [scoreGE] using h)
  · rw [rankedVerses]
    rw [List.pairwise_iff_getElem]
    intro i j hi hj hij heq
    have hidx := verse_scores_pairwise_index nlp O df u j1 q
    have hnodupVS := verse_scores_nodup nlp O df u j1 q
    have hnodupR : ((verse_scores nlp O df u j1 q).mergeSort scoreGE).Nodup :=
      (List.mergeSort_perm (verse_scores nlp O df u j1 q) scoreGE).nodup_iff.mpr
        hnodupVS
    set VS := verse_scores nlp O df u j1 q with hVS
    set R := VS.mergeSort scoreGE with hR
    have hxmem : R[i] ∈ VS := List.mem_mergeSort.mp (List.getElem_mem hi)
    have hymem : R[j] ∈ VS := List.mem_mergeSort.mp (List.getElem_mem hj)
    obtain ⟨kx, hkx, hkxeq⟩ := List.mem_iff_getElem.mp hxmem
    obtain ⟨ky, hky, hkyeq⟩ := List.mem_iff_getElem.mp hymem
    rcases lt_trichotomy kx ky with hk | hk | hk
    · have := (List.pairwise_iff_getElem.mp hidx) kx ky hkx hky hk
      rw [hkxeq, hkyeq] at this
      exact this
    · exfalso
      subst hk
      have : R[i] = R[j] := by rw [← hkxeq, ← hkyeq]
      exact absurd (hnodupR.getElem_inj_iff.mp this) (by omega)
    · exfalso
      have hpair : List.Sublist [VS.get ⟨ky, hky⟩, VS.get ⟨kx, hkx⟩] VS :=
        pair_sublist_of_lt VS ky kx hky hkx hk
      rw [List.get_eq_getElem, List.get_eq_getElem, hkxeq, hkyeq] at hpair
      have hle : scoreGE R[j] R[i] := by
        simp only [scoreGE, decide_eq_true_eq]
        exact le_of_eq heq
      have hsubR : List.Sublist [R[j], R[i]] R :=
        List.pair_sublist_mergeSort scoreGE_trans scoreGE_total hle hpair
      obtain ⟨p, q2, hp, hq2, hpq, hyp, hxq⟩ :=
        pair_sublist_positions R R[j] R[i] hsubR
      rw [List.get_eq_getElem] at hyp hxq
      have hpj : p = j := hnodupR.getElem_inj_iff.mp hyp
      have hqi : q2 = i := hnodupR.getElem_inj_iff.mp hxq
      omega

/-- Witness for C9 with both jitter draws pinned to the constant 1. -/
theorem C9_rank_deterministic_stable_witness :
    rankedVerses plainNLP noRel [⟨1, 1, "a", ""⟩, ⟨1, 2, "b", ""⟩]
        UsageState.init (fun _ => 1) "a" =
      rankedVerses plainNLP noRel [⟨1, 1, "a", ""⟩, ⟨1, 2, "b", ""⟩]
        UsageState.init (fun _ => 1) "a" ∧
    (rankedVerses plainNLP noRel [⟨1, 1, "a", ""⟩, ⟨1, 2, "b", ""⟩]
        UsageState.init (fun _ => 1) "a").Pairwise
      (fun a b => b.score ≤ a.score) ∧
    (rankedVerses plainNLP noRel [⟨1, 1, "a", ""⟩, ⟨1, 2, "b", ""⟩]
        UsageState.init (fun _ => 1) "a").Pairwise
      (fun a b => a.score = b.score → a.index < b.index) :=
  C9_rank_deterministic_stable plainNLP noRel
    [⟨1, 1, "a", ""⟩, ⟨1, 2, "b", ""⟩] UsageState.init
    (fun _ => 1) (fun _ => 1) "a" (fun _ => rfl) (fun _ => rfl)

example : pyWords "x" = ["x"] := rfl
example : setWords "a b" = ["a", "b"] := by decide
example : lemmaWords noRel "x" = ["x"] := by decide
example : semantic_matches noRel "x" "x" = 0 := by decide
example : semantic_matches allRel "a b" "a b" = 4 := by decide
example : jaccard_sim "x" "x" = 1 := by
  have h0 : tokenFinset "x" ≠ ∅ := by decide
  have hc : (tokenFinset "x").card = 1 := by decide
  simp [jaccard_sim, h0, hc]
example : calculate_similarity noRel "x" "x" = 0.6 := by
  have h0 : tokenFinset "x" ≠ ∅ := by decide
  have hc : (tokenFinset "x").card = 1 := by decide
  have h3 : lemmaWords noRel "x" = ["x"] := by decide
  have h4 : semantic_matches noRel "x" "x" = 0 := by decide
  rw [calculate_similarity, jaccard_sim, semantic_sim, h3, h4]
  norm_num [hc, h0]

end Gita
